import Mathlib

/-!
# Verification of the curlion reactor (`ConnectionManager`) and its collaborators

Shallow embedding of the curlion library:

* `src/connection_manager.cpp` — the reactor: `StartConnection`, `AbortConnection`,
  `SetTimer`, `WatchSocket`, `SocketEventTriggered` / `TimerTriggered`,
  `CheckFinishedConnections`.
* `example/asio.cpp` — the asio adapters `AsioTimer` and `AsioSingleSocketWatcher`.
* `src/http_connection.cpp` — `GetResponseHeaders` / `ParseResponseHeaders` /
  `SplitString`.

Modelling conventions: CURL easy handles and sockets are `Nat`; the running-set
`std::map<CURL*, std::shared_ptr<Connection>>` is a duplicate-free `List Nat` of
easy-handle keys (the mapped connection is determined by its key, since the key is
the connection's own handle); externally visible actions (calls into connections,
the multi handle and the socket watcher) are recorded as explicit effect traces,
in the order the C++ performs them.
-/

namespace Curlion

/-- The event enumeration `SocketWatcher::Event` (src/socket_watcher.h, used by connection_manager.cpp). -/
inductive SocketEvent
  | read
  | write
  | readWrite
  deriving DecidableEq, Repr

/-- A call made by the reactor into the `SocketWatcher` collaborator. -/
inductive WatcherCall
  | stopWatching (socket : Nat)
  | watch (socket : Nat) (event : SocketEvent)
  deriving DecidableEq, Repr

/-- The curl constant `CURL_POLL_IN`. -/
def CURL_POLL_IN : Nat := 1
/-- The curl constant `CURL_POLL_OUT`. -/
def CURL_POLL_OUT : Nat := 2
/-- The curl constant `CURL_POLL_INOUT`. -/
def CURL_POLL_INOUT : Nat := 3
/-- The curl constant `CURL_POLL_REMOVE`. -/
def CURL_POLL_REMOVE : Nat := 4

/-- The `switch (action)` in `ConnectionManager::WatchSocket`: the `event` local is
initialised to `SocketWatcher::Event::Read` and only the `CURL_POLL_OUT` and
`CURL_POLL_INOUT` cases overwrite it; every other action value leaves the default. -/
def eventForAction (action : Nat) : SocketEvent :=
  if action = CURL_POLL_OUT then SocketEvent.write
  else if action = CURL_POLL_INOUT then SocketEvent.readWrite
  else SocketEvent.read

/-- Model of `ConnectionManager::WatchSocket(socket, action, socket_pointer)`.

`seenTag` is whether `socket_pointer == kIsNotNewSocketTag` (the per-socket tag the
reactor stores with `curl_multi_assign`).  Returns the ordered list of calls made
into the socket watcher and the value of the tag after the call (the `else` branch
runs `curl_multi_assign(multi_handle_, socket, kIsNotNewSocketTag)`, so the tag is
set afterwards in every path). -/
def watchSocket (socket : Nat) (action : Nat) (seenTag : Bool) :
    List WatcherCall × Bool :=
  let stops := if seenTag then [WatcherCall.stopWatching socket] else []
  if action = CURL_POLL_REMOVE then
    (stops, true)
  else
    (stops ++ [WatcherCall.watch socket (eventForAction action)], true)

/-- One message drained from `curl_multi_info_read`: either `CURLMSG_DONE` for an
easy handle with a `CURLcode` result, or some other message kind. -/
inductive CurlMsg
  | done (handle : Nat) (result : Nat)
  | other
  deriving DecidableEq, Repr

/-- An externally visible action of the reactor on a connection or on the curl
multi handle. -/
inductive Effect
  | willStart (handle : Nat)
  | multiAdd (handle : Nat)
  | multiRemove (handle : Nat)
  | didFinish (handle : Nat) (result : Nat)
  deriving DecidableEq, Repr

/-- Model of `ConnectionManager::StartConnection`: if the easy handle is already a key of
`running_connections_` the call returns immediately; otherwise it calls
`connection->WillStart()`, inserts the pair, and calls `curl_multi_add_handle`. -/
def startConnection (running : List Nat) (handle : Nat) : List Nat × List Effect :=
  if handle ∈ running then
    (running, [])
  else
    (handle :: running, [Effect.willStart handle, Effect.multiAdd handle])

/-- Model of `ConnectionManager::AbortConnection`: if the easy handle is not in
`running_connections_` the call returns immediately; otherwise it erases the entry
and calls `curl_multi_remove_handle`. -/
def abortConnection (running : List Nat) (handle : Nat) : List Nat × List Effect :=
  if handle ∈ running then
    (running.erase handle, [Effect.multiRemove handle])
  else
    (running, [])

/-- One iteration of the drain loop in `ConnectionManager::CheckFinishedConnections`
for a message returned by `curl_multi_info_read`: a `CURLMSG_DONE` message whose
easy handle is found in `running_connections_` erases the entry first and then
calls `connection->DidFinish(msg->data.result)`; any other message is skipped. -/
def processMsg (running : List Nat) (msg : CurlMsg) : List Nat × List Effect :=
  match msg with
  | CurlMsg.done h r =>
    if h ∈ running then
      (running.erase h, [Effect.didFinish h r])
    else
      (running, [])
  | CurlMsg.other => (running, [])

/-- Model of `ConnectionManager::CheckFinishedConnections`: loops calling
`curl_multi_info_read` until it returns null.  `msgs` is the finite queue of
messages the multi handle hands out before reporting none remain. -/
def checkFinishedConnections (running : List Nat) (msgs : List CurlMsg) :
    List Nat × List Effect :=
  match msgs with
  | [] => (running, [])
  | msg :: rest =>
    let step := processMsg running msg
    let next := checkFinishedConnections step.1 rest
    (next.1, step.2 ++ next.2)

/-- Model of `ConnectionManager::TimerTriggered`: drives the engine with
`curl_multi_socket_action(..., CURL_SOCKET_TIMEOUT, ...)` (which makes `msgs`
available from `curl_multi_info_read`) and then calls
`CheckFinishedConnections`. -/
def timerTriggered (running : List Nat) (msgs : List CurlMsg) :
    List Nat × List Effect :=
  checkFinishedConnections running msgs

/-- Model of `ConnectionManager::SocketEventTriggered`: drives the engine with
`curl_multi_socket_action(multi_handle_, socket, action, ...)` (which makes `msgs`
available from `curl_multi_info_read`) and then calls
`CheckFinishedConnections`. -/
def socketEventTriggered (running : List Nat) (_socket : Nat) (_canWrite : Bool)
    (msgs : List CurlMsg) : List Nat × List Effect :=
  checkFinishedConnections running msgs

/-- A caller- or engine-initiated entry into the reactor. -/
inductive Cmd
  | start (handle : Nat)
  | abort (handle : Nat)
  | timerFired (msgs : List CurlMsg)
  | socketReady (socket : Nat) (canWrite : Bool) (msgs : List CurlMsg)
  deriving DecidableEq, Repr

/-- Dispatch one entry into the reactor. -/
def stepCmd (running : List Nat) : Cmd → List Nat × List Effect
  | Cmd.start h => startConnection running h
  | Cmd.abort h => abortConnection running h
  | Cmd.timerFired msgs => timerTriggered running msgs
  | Cmd.socketReady socket canWrite msgs =>
    socketEventTriggered running socket canWrite msgs

/-- Run a sequence of entries, concatenating the emitted effect traces. -/
def run (running : List Nat) : List Cmd → List Nat × List Effect
  | [] => (running, [])
  | c :: cs =>
    let step := stepCmd running c
    let next := run step.1 cs
    (next.1, step.2 ++ next.2)

/-- Does this effect record `WillStart` on handle `h`? -/
def isWillStartOf (h : Nat) : Effect → Bool
  | Effect.willStart h' => h' == h
  | _ => false

/-- Does this effect record `curl_multi_add_handle` on handle `h`? -/
def isAddOf (h : Nat) : Effect → Bool
  | Effect.multiAdd h' => h' == h
  | _ => false

/-- Does this effect record `curl_multi_remove_handle` on handle `h`? -/
def isRemoveOf (h : Nat) : Effect → Bool
  | Effect.multiRemove h' => h' == h
  | _ => false

/-- Does this effect record `DidFinish` on handle `h` (with any result)? -/
def isFinishOf (h : Nat) : Effect → Bool
  | Effect.didFinish h' _ => h' == h
  | _ => false

/-- Equals `1` when `h` is a key of the running-set, else `0`. -/
def ind (h : Nat) (s : List Nat) : Nat := if h ∈ s then 1 else 0

/-!
## Timer model (`ConnectionManager::SetTimer` over `AsioTimer`, example/asio.cpp)

Alarms armed on the shared `boost::asio::deadline_timer` are numbered by a fresh
identifier.  `AsioTimer::Stop` runs `timer_.cancel()`, which makes the pending
alarm's handler complete with `operation_aborted`; `AsioTimer::TimerTriggered`
returns without invoking the callback exactly when the error is
`operation_aborted`, so a cancelled alarm's user callback never executes. -/

/-- The observable state of the shared `AsioTimer`. -/
structure TimerState where
  /-- The alarm armed by the most recent uncancelled `Start`, if any. -/
  pending : Option Nat
  /-- Alarms whose handler will complete with `operation_aborted`. -/
  cancelled : List Nat
  /-- Fresh identifier for the next alarm `Start` arms. -/
  nextId : Nat
  deriving DecidableEq, Repr

/-- Model of `AsioTimer::Stop`: `timer_.cancel()` — the pending alarm, if any, is marked so
that its handler fires with `operation_aborted`. -/
def timerStop (t : TimerState) : TimerState :=
  match t.pending with
  | some a => { pending := none, cancelled := a :: t.cancelled, nextId := t.nextId }
  | none => t

/-- Model of `AsioTimer::Start`: arms a fresh single-shot alarm via
`timer_.expires_from_now(...)` and `timer_.async_wait(...)`. -/
def timerStart (t : TimerState) : TimerState :=
  { pending := some t.nextId, cancelled := t.cancelled, nextId := t.nextId + 1 }

/-- Model of `ConnectionManager::SetTimer(timeout_ms)`: calls `timer_->Stop()`, then calls
`timer_->Start(...)` exactly when `timeout_ms >= 0`. -/
def setTimer (timeoutMs : Int) (t : TimerState) : TimerState :=
  let t1 := timerStop t
  if 0 ≤ timeoutMs then timerStart t1 else t1

/-- Model of `AsioTimer::TimerTriggered` for alarm `a`: the user callback executes iff the
handler's error is not `operation_aborted`, i.e. iff `a` was never cancelled. -/
def alarmCallbackRuns (t : TimerState) (a : Nat) : Prop := a ∉ t.cancelled

instance (t : TimerState) (a : Nat) : Decidable (alarmCallbackRuns t a) := by
  unfold alarmCallbackRuns; infer_instance

/-- Well-formedness of the timer state: every alarm ever armed has an identifier
below `nextId`.  Holds for the initial state and is preserved by every
operation. -/
def timerWF (t : TimerState) : Prop :=
  (∀ a ∈ t.cancelled, a < t.nextId) ∧ (∀ a, t.pending = some a → a < t.nextId)

/-!
## Single-socket watcher model (`AsioSingleSocketWatcher`, example/asio.cpp)

`Stop` sets `is_stopped_` and cancels the socket's outstanding asynchronous
operation.  `EventTriggered` returns immediately on `operation_aborted`;
otherwise it invokes the user callback and then re-issues the one-shot wait
(`Watch()`) only if `is_stopped_` is still false — the comment in the source:
"End watching once stopped." -/

/-- Observable state of one `AsioSingleSocketWatcher`. -/
structure WatcherState where
  /-- The `is_stopped_` flag. -/
  stopped : Bool
  /-- Whether a one-shot asynchronous wait is currently outstanding. -/
  armed : Bool
  deriving DecidableEq, Repr

/-- Model of `AsioSingleSocketWatcher::Stop` as it affects the flag: sets `is_stopped_`
(it also cancels the outstanding operation, which in this model surfaces as that
operation completing with `operation_aborted`). -/
def watcherStop (w : WatcherState) : WatcherState :=
  { w with stopped := true }

/-- Model of `AsioSingleSocketWatcher::EventTriggered`, processing the completion of the
outstanding one-shot wait.  `aborted` is whether the completion carried
`operation_aborted`; `callsStop` is whether the user callback transitively calls
`Stop` on this watcher (the only way a callback can affect the watcher's state).
Returns the new state and whether the user callback was invoked. -/
def eventTriggered (w : WatcherState) (aborted : Bool) (callsStop : Bool) :
    WatcherState × Bool :=
  let w0 : WatcherState := { w with armed := false }
  if aborted then
    (w0, false)
  else
    let w1 := if callsStop then watcherStop w0 else w0
    let w2 := if w1.stopped then w1 else { w1 with armed := true }
    (w2, true)

/-- Run a list of completion events against the watcher; a completion can only be
delivered while a wait is outstanding.  Returns the number of user-callback
invocations. -/
def watcherRun (w : WatcherState) : List (Bool × Bool) → Nat
  | [] => 0
  | (aborted, callsStop) :: rest =>
    if w.armed then
      let step := eventTriggered w aborted callsStop
      (if step.2 then 1 else 0) + watcherRun step.1 rest
    else
      watcherRun w rest

/-!
## HTTP response-header parsing (`src/http_connection.cpp`)

Strings are modelled as `List Char`; the `std::multimap` `response_headers_` is
modelled as the list of inserted key/value pairs (the claims are about which
pairs are contributed, not about the multimap's key ordering). -/

/-- Model of `std::string::find(delimiter, begin)` relative to `begin`: the least offset at
which `delim` occurs as a contiguous sublist of `s`, or `none` (npos). -/
def findSub (delim : List Char) : List Char → Option Nat
  | [] => if delim.isPrefixOf ([] : List Char) then some 0 else none
  | c :: rest =>
    if delim.isPrefixOf (c :: rest) then some 0
    else (findSub delim rest).map (· + 1)

/-- Model of `SplitString` (http_connection.cpp): repeatedly finds the delimiter, pushes
the segment before it, and resumes after the delimiter; a final segment with no
delimiter after it is pushed whole; an empty input yields an empty vector.  The
C++ loop does not terminate when the delimiter is empty (`std::string::find` of
an empty needle succeeds in place); the source only calls it with `"\r\n"` and
`": "`, and this model returns `[]` in that unused case. -/
def splitString (strng delim : List Char) : List (List Char) :=
  match strng with
  | [] => []
  | c :: rest =>
    if hd : delim.length = 0 then []
    else
      match findSub delim (c :: rest) with
      | none => [c :: rest]
      | some i =>
        (c :: rest).take i :: splitString ((c :: rest).drop (i + delim.length)) delim
termination_by strng.length
decreasing_by
  simp only [List.length_drop, List.length_cons]
  omega

/-- The CRLF line delimiter `"\r\n"` used by `ParseResponseHeaders`. -/
def crlf : List Char := ['\r', '\n']

/-- The `": "` key/value delimiter used by `ParseResponseHeaders`. -/
def colonSpace : List Char := [':', ' ']

/-- The body of the `for (auto& each_line : lines)` loop in
`HttpConnection::ParseResponseHeaders`: split the line on `": "`; `continue` when
fewer than two segments result, otherwise insert the pair `(at(0), at(1))`. -/
def parseHeaderStep (acc : List (List Char × List Char)) (line : List Char) :
    List (List Char × List Char) :=
  let kv := splitString line colonSpace
  if kv.length < 2 then acc
  else acc ++ [(kv.getD 0 [], kv.getD 1 [])]

/-- Model of `HttpConnection::ParseResponseHeaders`: splits the raw header text on CRLF
and runs the insertion loop over the lines. -/
def parseResponseHeaders (raw : List Char) : List (List Char × List Char) :=
  (splitString raw crlf).foldl parseHeaderStep []

/-- State of an `HttpConnection` relevant to response-header parsing. -/
structure HttpConnState where
  /-- The raw header text accumulated by `WriteHeader` (`response_header_`). -/
  responseHeaderRaw : List Char
  /-- The `has_parsed_response_headers_` flag. -/
  hasParsedResponseHeaders : Bool
  /-- The `response_headers_` multimap contents. -/
  responseHeaders : List (List Char × List Char)
  deriving DecidableEq, Repr

/-- Model of `HttpConnection::GetResponseHeaders`: parses the raw header text into
`response_headers_` only if `has_parsed_response_headers_` is unset, then sets
the flag; returns the (new) state and the returned multimap. -/
def getResponseHeaders (st : HttpConnState) :
    HttpConnState × List (List Char × List Char) :=
  if st.hasParsedResponseHeaders then
    (st, st.responseHeaders)
  else
    let st' : HttpConnState :=
      { st with
        responseHeaders := st.responseHeaders ++ parseResponseHeaders st.responseHeaderRaw
        hasParsedResponseHeaders := true }
    (st', st'.responseHeaders)

/-- Spec-side description of a header line's contribution: a line yielding fewer
than two `": "`-segments contributes nothing, and a line yielding two or more
contributes exactly the pair of the first two segments, later segments
discarded. -/
def lineToHeaderPair (line : List Char) : Option (List Char × List Char) :=
  match splitString line colonSpace with
  | k :: v :: _ => some (k, v)
  | _ => none

/-- Spec-side description of the whole parse: split on CRLF, keep each line's
contribution. -/
def parseResponseHeadersSpec (raw : List Char) : List (List Char × List Char) :=
  (splitString raw crlf).filterMap lineToHeaderPair

/-!
## Bookkeeping lemmas for the running-set state machine
-/

theorem processMsg_nodup {s : List Nat} (m : CurlMsg) (hs : s.Nodup) :
    (processMsg s m).1.Nodup := by
  cases m with
  | done h r =>
    by_cases hmem : h ∈ s
    · simpa [processMsg, hmem] using hs.erase h
    · simpa [processMsg, hmem] using hs
  | other => simpa [processMsg] using hs

theorem checkFinished_nodup {s : List Nat} (msgs : List CurlMsg) (hs : s.Nodup) :
    (checkFinishedConnections s msgs).1.Nodup := by
  induction msgs generalizing s with
  | nil => simpa [checkFinishedConnections] using hs
  | cons m rest ih =>
    simpa [checkFinishedConnections] using ih (processMsg_nodup m hs)

theorem stepCmd_nodup {s : List Nat} (c : Cmd) (hs : s.Nodup) :
    (stepCmd s c).1.Nodup := by
  cases c with
  | start h =>
    by_cases hmem : h ∈ s
    · simpa [stepCmd, startConnection, hmem] using hs
    · have hcons : (h :: s).Nodup := List.nodup_cons.2 ⟨hmem, hs⟩
      simpa [stepCmd, startConnection, hmem] using hcons
  | abort h =>
    by_cases hmem : h ∈ s
    · simpa [stepCmd, abortConnection, hmem] using hs.erase h
    · simpa [stepCmd, abortConnection, hmem] using hs
  | timerFired msgs =>
    simpa [stepCmd, timerTriggered] using checkFinished_nodup msgs hs
  | socketReady sock cw msgs =>
    simpa [stepCmd, socketEventTriggered] using checkFinished_nodup msgs hs

theorem run_nodup {s : List Nat} (cmds : List Cmd) (hs : s.Nodup) :
    (run s cmds).1.Nodup := by
  induction cmds generalizing s with
  | nil => simpa [run] using hs
  | cons c rest ih => simpa [run] using ih (stepCmd_nodup c hs)

theorem processMsg_subset {s : List Nat} (m : CurlMsg) :
    (processMsg s m).1 ⊆ s := by
  cases m with
  | done h r =>
    by_cases hmem : h ∈ s
    · simpa [processMsg, hmem] using List.erase_subset h s
    · simp [processMsg, hmem]
  | other => simp [processMsg]

theorem checkFinished_subset {s : List Nat} (msgs : List CurlMsg) :
    (checkFinishedConnections s msgs).1 ⊆ s := by
  induction msgs generalizing s with
  | nil => simp [checkFinishedConnections]
  | cons m rest ih =>
    exact fun x hx =>
      processMsg_subset m (by simpa [checkFinishedConnections] using ih hx)

/-- Per-message conservation: the adds in the emitted effects plus the prior
membership indicator balance the removes, the finishes and the new membership
indicator. -/
theorem processMsg_conservation {s : List Nat} (m : CurlMsg) (h : Nat)
    (hs : s.Nodup) :
    (processMsg s m).2.countP (isAddOf h) + ind h s =
      (processMsg s m).2.countP (isRemoveOf h) +
        (processMsg s m).2.countP (isFinishOf h) + ind h (processMsg s m).1 := by
  cases m with
  | done h' r =>
    by_cases hmem : h' ∈ s
    · by_cases heq : h' = h
      · subst heq
        have herase : h' ∉ s.erase h' := fun hc => (hs.mem_erase_iff.1 hc).1 rfl
        simp [processMsg, hmem, ind, hmem, herase, isAddOf, isRemoveOf, isFinishOf,
          List.countP_cons]
      · have herase : h ∈ s.erase h' ↔ h ∈ s :=
          List.mem_erase_of_ne (fun hc => heq hc.symm)
        simp only [processMsg, if_pos hmem]
        simp [ind, herase, isAddOf, isRemoveOf, isFinishOf, List.countP_cons, heq]
    · simp [processMsg, hmem, ind]
  | other => simp [processMsg, ind]

/-- Conservation across a whole drain loop. -/
theorem checkFinished_conservation {s : List Nat} (msgs : List CurlMsg) (h : Nat)
    (hs : s.Nodup) :
    (checkFinishedConnections s msgs).2.countP (isAddOf h) + ind h s =
      (checkFinishedConnections s msgs).2.countP (isRemoveOf h) +
        (checkFinishedConnections s msgs).2.countP (isFinishOf h) +
        ind h (checkFinishedConnections s msgs).1 := by
  induction msgs generalizing s with
  | nil => simp [checkFinishedConnections]
  | cons m rest ih =>
    have h1 := processMsg_conservation m h hs
    have h2 := ih (processMsg_nodup m hs)
    simp only [checkFinishedConnections, List.countP_append]
    omega

/-- Conservation across a single reactor entry. -/
theorem stepCmd_conservation {s : List Nat} (c : Cmd) (h : Nat) (hs : s.Nodup) :
    (stepCmd s c).2.countP (isAddOf h) + ind h s =
      (stepCmd s c).2.countP (isRemoveOf h) +
        (stepCmd s c).2.countP (isFinishOf h) + ind h (stepCmd s c).1 := by
  cases c with
  | start h' =>
    by_cases hmem : h' ∈ s
    · simp [stepCmd, startConnection, hmem]
    · by_cases heq : h' = h
      · subst heq
        simp [stepCmd, startConnection, hmem, ind, isAddOf, isRemoveOf, isFinishOf,
          List.countP_cons]
      · simp [stepCmd, startConnection, hmem, ind, isAddOf, isRemoveOf, isFinishOf,
          List.countP_cons, heq, Ne.symm heq]
  | abort h' =>
    by_cases hmem : h' ∈ s
    · by_cases heq : h' = h
      · subst heq
        have herase : h' ∉ s.erase h' := fun hc => (hs.mem_erase_iff.1 hc).1 rfl
        simp [stepCmd, abortConnection, hmem, ind, herase, isAddOf, isRemoveOf,
          isFinishOf, List.countP_cons]
      · have herase : h ∈ s.erase h' ↔ h ∈ s :=
          List.mem_erase_of_ne (fun hc => heq hc.symm)
        simp only [stepCmd, abortConnection, if_pos hmem]
        simp [ind, herase, isAddOf, isRemoveOf, isFinishOf, List.countP_cons, heq]
    · simp [stepCmd, abortConnection, hmem, ind]
  | timerFired msgs =>
    simpa [stepCmd, timerTriggered] using checkFinished_conservation msgs h hs
  | socketReady sock cw msgs =>
    simpa [stepCmd, socketEventTriggered] using checkFinished_conservation msgs h hs

/-- Conservation across any sequence of reactor entries. -/
theorem run_conservation {s : List Nat} (cmds : List Cmd) (h : Nat)
    (hs : s.Nodup) :
    (run s cmds).2.countP (isAddOf h) + ind h s =
      (run s cmds).2.countP (isRemoveOf h) +
        (run s cmds).2.countP (isFinishOf h) + ind h (run s cmds).1 := by
  induction cmds generalizing s with
  | nil => simp [run]
  | cons c rest ih =>
    have h1 := stepCmd_conservation c h hs
    have h2 := ih (stepCmd_nodup c hs)
    simp only [run, List.countP_append]
    omega

/-- A done-message for a handle not in the running-set emits no `DidFinish` for
it and cannot put it (back) in the set. -/
theorem processMsg_no_finish {s : List Nat} {h : Nat} (m : CurlMsg)
    (hmem : h ∉ s) :
    (processMsg s m).2.countP (isFinishOf h) = 0 ∧ h ∉ (processMsg s m).1 := by
  cases m with
  | done h' r =>
    by_cases hm : h' ∈ s
    · have hne : h' ≠ h := fun e => hmem (e ▸ hm)
      refine ⟨by simp [processMsg, hm, isFinishOf, List.countP_cons, hne], ?_⟩
      simp only [processMsg, if_pos hm]
      exact fun hc => hmem (List.erase_subset h' s hc)
    · simpa [processMsg, hm] using hmem
  | other => simpa [processMsg] using hmem

/-- A drain loop emits no `DidFinish` for a handle that was not running when it
began, and leaves it out of the running-set. -/
theorem checkFinished_no_finish {s : List Nat} {h : Nat} (msgs : List CurlMsg)
    (hmem : h ∉ s) :
    (checkFinishedConnections s msgs).2.countP (isFinishOf h) = 0 ∧
      h ∉ (checkFinishedConnections s msgs).1 := by
  induction msgs generalizing s with
  | nil => simpa [checkFinishedConnections] using hmem
  | cons m rest ih =>
    obtain ⟨e1, m1⟩ := processMsg_no_finish m hmem
    obtain ⟨e2, m2⟩ := ih m1
    refine ⟨?_, by simpa [checkFinishedConnections] using m2⟩
    simp only [checkFinishedConnections, List.countP_append]
    omega

/-- Any reactor entry other than `Start` on `h` emits no `DidFinish` for a
non-running `h` and leaves it out of the running-set. -/
theorem stepCmd_no_finish {s : List Nat} {h : Nat} (c : Cmd) (hmem : h ∉ s)
    (hc : c ≠ Cmd.start h) :
    (stepCmd s c).2.countP (isFinishOf h) = 0 ∧ h ∉ (stepCmd s c).1 := by
  cases c with
  | start h' =>
    have hne : h' ≠ h := fun e => hc (by rw [e])
    by_cases hm : h' ∈ s
    · exact ⟨by simp [stepCmd, startConnection, hm, isFinishOf],
        by simpa [stepCmd, startConnection, hm] using hmem⟩
    · refine ⟨by simp [stepCmd, startConnection, hm, isFinishOf, List.countP_cons], ?_⟩
      simp only [stepCmd, startConnection, if_neg hm]
      intro hcon
      rcases List.mem_cons.1 hcon with e | e
      · exact hne e.symm
      · exact hmem e
  | abort h' =>
    by_cases hm : h' ∈ s
    · refine ⟨by simp [stepCmd, abortConnection, hm, isFinishOf, List.countP_cons], ?_⟩
      simp only [stepCmd, abortConnection, if_pos hm]
      exact fun hcon => hmem (List.erase_subset h' s hcon)
    · exact ⟨by simp [stepCmd, abortConnection, hm], by simpa [stepCmd, abortConnection, hm] using hmem⟩
  | timerFired msgs =>
    simpa [stepCmd, timerTriggered] using checkFinished_no_finish msgs hmem
  | socketReady sock cw msgs =>
    simpa [stepCmd, socketEventTriggered] using checkFinished_no_finish msgs hmem

/-- A whole run that never starts `h`, beginning with `h` not running, emits no
`DidFinish` for `h` and never re-admits it. -/
theorem run_no_finish {s : List Nat} {h : Nat} (cmds : List Cmd) (hmem : h ∉ s)
    (hc : ∀ c ∈ cmds, c ≠ Cmd.start h) :
    (run s cmds).2.countP (isFinishOf h) = 0 ∧ h ∉ (run s cmds).1 := by
  induction cmds generalizing s with
  | nil => simpa [run] using hmem
  | cons c rest ih =>
    obtain ⟨e1, m1⟩ := stepCmd_no_finish c hmem (hc c (List.mem_cons_self c rest))
    obtain ⟨e2, m2⟩ := ih m1 (fun c' hc' => hc c' (List.mem_cons_of_mem c hc'))
    refine ⟨?_, by simpa [run] using m2⟩
    simp only [run, List.countP_append]
    omega

/-- A handle removed from the running-set by a drain loop had a done-message in
the drained queue. -/
theorem checkFinished_removed_has_done {s : List Nat} {h : Nat}
    (msgs : List CurlMsg) (hmem : h ∈ s)
    (hout : h ∉ (checkFinishedConnections s msgs).1) :
    ∃ r, CurlMsg.done h r ∈ msgs := by
  induction msgs generalizing s with
  | nil => exact absurd hmem (by simpa [checkFinishedConnections] using hout)
  | cons m rest ih =>
    by_cases hkeep : h ∈ (processMsg s m).1
    · obtain ⟨r, hr⟩ := ih hkeep (by simpa [checkFinishedConnections] using hout)
      exact ⟨r, List.mem_cons_of_mem m hr⟩
    · cases m with
      | done h' r =>
        by_cases hm : h' ∈ s
        · by_cases heq : h' = h
          · exact ⟨r, heq ▸ List.mem_cons_self _ rest⟩
          · exact absurd
              ((List.mem_erase_of_ne fun e => heq e.symm).2 hmem)
              (by simpa [processMsg, hm] using hkeep)
        · exact absurd hmem (by simpa [processMsg, hm] using hkeep)
      | other => exact absurd hmem (by simpa [processMsg] using hkeep)

/-!
## Claims about `WatchSocket` and `StartConnection`
-/

/-- Claim C3: Calling `StartConnection` on a handle already in the running-set is a
no-op: the running-set is unchanged and no effect — neither the `WillStart`
transient-state reset nor a `curl_multi_add_handle` submission — is emitted.  For
a handle not in the running-set, it resets the transient state, inserts the
handle, and submits it to the engine exactly once, in that order. -/
theorem startConnection_idempotent_guard :
    ∀ (running : List Nat) (handle : Nat),
      (handle ∈ running → startConnection running handle = (running, [])) ∧
      (handle ∉ running →
        startConnection running handle =
          (handle :: running, [Effect.willStart handle, Effect.multiAdd handle])) := by
  intro running handle
  constructor
  · intro hmem
    simp [startConnection, hmem]
  · intro hmem
    simp [startConnection, hmem]

/-- Witness for C3 at concrete inputs: restarting running handle `5` is a no-op,
and starting fresh handle `4` inserts and submits it once. -/
theorem startConnection_idempotent_guard_witness :
    startConnection [5, 2] 5 = ([5, 2], []) ∧
      startConnection [5, 2] 4 =
        ([4, 5, 2], [Effect.willStart 4, Effect.multiAdd 4]) :=
  ⟨(startConnection_idempotent_guard [5, 2] 5).1 (by decide),
    (startConnection_idempotent_guard [5, 2] 4).2 (by decide)⟩

/-- Claim C4: For a socket-interest-changed event with a non-remove interest: when
the seen tag is set, the watcher calls are exactly one stop-watch followed by the
new watch, in that order; when the tag is not set, no stop-watch call occurs, the
socket is marked seen (the returned tag is set), and a watch is installed. -/
theorem watchSocket_nonremove_stop_then_watch :
    ∀ (socket action : Nat) (seenTag : Bool), action ≠ CURL_POLL_REMOVE →
      (seenTag = true →
        (watchSocket socket action seenTag).1 =
          [WatcherCall.stopWatching socket,
            WatcherCall.watch socket (eventForAction action)]) ∧
      (seenTag = false →
        (watchSocket socket action seenTag).1 =
            [WatcherCall.watch socket (eventForAction action)] ∧
          (watchSocket socket action seenTag).2 = true) := by
  intro socket action seenTag hact
  cases seenTag <;> simp [watchSocket, hact]

/-- Witness for C4 at concrete inputs: a `CURL_POLL_IN` change on seen socket `3`
stops then watches; on an unseen socket it only watches and sets the tag. -/
theorem watchSocket_nonremove_stop_then_watch_witness :
    (watchSocket 3 CURL_POLL_IN true).1 =
        [WatcherCall.stopWatching 3, WatcherCall.watch 3 (eventForAction CURL_POLL_IN)] ∧
      (watchSocket 3 CURL_POLL_IN false).1 =
          [WatcherCall.watch 3 (eventForAction CURL_POLL_IN)] ∧
        (watchSocket 3 CURL_POLL_IN false).2 = true :=
  ⟨(watchSocket_nonremove_stop_then_watch 3 CURL_POLL_IN true (by decide)).1 rfl,
    (watchSocket_nonremove_stop_then_watch 3 CURL_POLL_IN false (by decide)).2 rfl⟩

/-- Claim C5: For a socket-interest-changed event with interest `CURL_POLL_REMOVE`,
no new watch is installed, whatever the seen tag; the existing watch — which the
reactor records via the seen tag — is stopped whenever the tag is set. -/
theorem watchSocket_remove_no_new_watch :
    ∀ (socket : Nat) (seenTag : Bool),
      (∀ s e, WatcherCall.watch s e ∉ (watchSocket socket CURL_POLL_REMOVE seenTag).1) ∧
      (seenTag = true →
        (watchSocket socket CURL_POLL_REMOVE seenTag).1 =
          [WatcherCall.stopWatching socket]) := by
  intro socket seenTag
  cases seenTag <;> simp [watchSocket]

/-- Witness for C5 at concrete inputs: a remove event on seen socket `7` emits
only the stop-watch call. -/
theorem watchSocket_remove_no_new_watch_witness :
    (watchSocket 7 CURL_POLL_REMOVE true).1 = [WatcherCall.stopWatching 7] :=
  (watchSocket_remove_no_new_watch 7 true).2 rfl

/-- Claim C9: For a socket-interest-changed event whose action is none of the
recognized values, the reactor installs a Read watch — the `event` variable's
initial default — after the usual tag-dependent stop. -/
theorem watchSocket_unknown_action_defaults_read :
    ∀ (socket action : Nat) (seenTag : Bool),
      action ≠ CURL_POLL_IN → action ≠ CURL_POLL_OUT → action ≠ CURL_POLL_INOUT →
      action ≠ CURL_POLL_REMOVE →
      (watchSocket socket action seenTag).1 =
        (if seenTag then [WatcherCall.stopWatching socket] else [])
          ++ [WatcherCall.watch socket SocketEvent.read] := by
  intro socket action seenTag _hin hout hinout hremove
  simp only [watchSocket, eventForAction, if_neg hremove, if_neg hout, if_neg hinout]

/-- Witness for C9 at concrete inputs: action `0` (`CURL_POLL_NONE`) on an unseen
socket installs a Read watch. -/
theorem watchSocket_unknown_action_defaults_read_witness :
    (watchSocket 9 0 false).1 =
      (if false then [WatcherCall.stopWatching 9] else [])
        ++ [WatcherCall.watch 9 SocketEvent.read] :=
  watchSocket_unknown_action_defaults_read 9 0 false (by decide) (by decide)
    (by decide) (by decide)

/-!
## Claims about completion dispatch and the running-set
-/

/-- Claim C1: `DidFinish` is invoked at most once per `Start`: over any run from the
initial (empty) running-set, the `DidFinish` effects for a handle never outnumber
its `curl_multi_add_handle` submissions (one per effective `Start`); a drained
done-message triggers `DidFinish` only when the handle is still in the
running-set (otherwise it emits nothing), and when it does, the handle is erased
from the running-set paired with that single `DidFinish` emission; and after an
`Abort` of a handle, no `DidFinish` for it is ever emitted for the rest of a run
that does not `Start` it again. -/
theorem didFinish_at_most_once_per_start :
    (∀ (cmds : List Cmd) (h : Nat),
        (run [] cmds).2.countP (isFinishOf h) ≤
          (run [] cmds).2.countP (isAddOf h)) ∧
    (∀ (s : List Nat) (h r : Nat), h ∉ s →
        processMsg s (CurlMsg.done h r) = (s, [])) ∧
    (∀ (s : List Nat) (h r : Nat), s.Nodup → h ∈ s →
        processMsg s (CurlMsg.done h r) = (s.erase h, [Effect.didFinish h r]) ∧
          h ∉ (processMsg s (CurlMsg.done h r)).1) ∧
    (∀ (s : List Nat) (cmds : List Cmd) (h : Nat), s.Nodup →
        (∀ c ∈ cmds, c ≠ Cmd.start h) →
        (run s (Cmd.abort h :: cmds)).2.countP (isFinishOf h) = 0) := by
  refine ⟨?_, ?_, ?_, ?_⟩
  · intro cmds h
    have hcons := run_conservation (s := []) cmds h List.nodup_nil
    simp only [ind, List.not_mem_nil, if_false] at hcons
    omega
  · intro s h r hmem
    simp [processMsg, hmem]
  · intro s h r hnd hmem
    refine ⟨by simp [processMsg, hmem], ?_⟩
    simp only [processMsg, if_pos hmem]
    exact fun hc => (hnd.mem_erase_iff.1 hc).1 rfl
  · intro s cmds h hnd hc
    have habort : h ∉ (abortConnection s h).1 := by
      by_cases hmem : h ∈ s
      · simp only [abortConnection, if_pos hmem]
        exact fun hcon => (hnd.mem_erase_iff.1 hcon).1 rfl
      · simp [abortConnection, hmem]
    have habort2 : (abortConnection s h).2.countP (isFinishOf h) = 0 := by
      by_cases hmem : h ∈ s
      · simp [abortConnection, hmem, isFinishOf]
      · simp [abortConnection, hmem]
    have hrest := run_no_finish cmds habort hc
    simp only [run, stepCmd, List.countP_append]
    omega

/-- Witness for C1 at concrete inputs: a run with one start and a double
done-message finishes handle `1` once; a done-message for non-running `9` is
discarded; a done-message for running `1` erases it and notifies once; and after
aborting `1`, a later drain never finishes it. -/
theorem didFinish_at_most_once_per_start_witness :
    (run [] [Cmd.start 1, Cmd.timerFired [CurlMsg.done 1 0, CurlMsg.done 1 0]]).2.countP
        (isFinishOf 1) ≤
      (run [] [Cmd.start 1, Cmd.timerFired [CurlMsg.done 1 0, CurlMsg.done 1 0]]).2.countP
        (isAddOf 1) ∧
    processMsg [2] (CurlMsg.done 9 0) = ([2], []) ∧
    processMsg [1, 2] (CurlMsg.done 1 7) = ([2], [Effect.didFinish 1 7]) ∧
    (run [1] [Cmd.abort 1, Cmd.timerFired [CurlMsg.done 1 0]]).2.countP
      (isFinishOf 1) = 0 :=
  ⟨didFinish_at_most_once_per_start.1
      [Cmd.start 1, Cmd.timerFired [CurlMsg.done 1 0, CurlMsg.done 1 0]] 1,
    didFinish_at_most_once_per_start.2.1 [2] 9 0 (by decide),
    (didFinish_at_most_once_per_start.2.2.1 [1, 2] 1 7 (by decide) (by decide)).1,
    didFinish_at_most_once_per_start.2.2.2 [1] [Cmd.timerFired [CurlMsg.done 1 0]] 1
      (by decide) (by decide)⟩

/-- Claim C2: After the engine is driven forward — by a timer firing or a socket
readiness event — the reactor drains completion messages until the engine reports
none remain: both trigger paths run the full drain loop, the loop consumes every
available message, each done-message found in the running-set removes exactly
that entry (the handle leaves the set and every other handle's membership is
untouched) and notifies it with its terminal result, and a done-message whose
handle is not in the running-set is silently discarded (state unchanged, no
effect emitted). -/
theorem drive_then_drain_all :
    (∀ (running : List Nat) (msgs : List CurlMsg),
        timerTriggered running msgs = checkFinishedConnections running msgs) ∧
    (∀ (running : List Nat) (socket : Nat) (canWrite : Bool) (msgs : List CurlMsg),
        socketEventTriggered running socket canWrite msgs =
          checkFinishedConnections running msgs) ∧
    (∀ (running : List Nat) (msgs : List CurlMsg),
        (checkFinishedConnections running msgs).1 =
          msgs.foldl (fun s m => (processMsg s m).1) running) ∧
    (∀ (running : List Nat) (h r : Nat), running.Nodup → h ∈ running →
        (processMsg running (CurlMsg.done h r)).2 = [Effect.didFinish h r] ∧
          h ∉ (processMsg running (CurlMsg.done h r)).1 ∧
          (∀ h', h' ≠ h →
            (h' ∈ (processMsg running (CurlMsg.done h r)).1 ↔ h' ∈ running))) ∧
    (∀ (running : List Nat) (h r : Nat), h ∉ running →
        processMsg running (CurlMsg.done h r) = (running, [])) := by
  refine ⟨fun _ _ => rfl, fun _ _ _ _ => rfl, ?_, ?_, ?_⟩
  · intro running msgs
    induction msgs generalizing running with
    | nil => simp [checkFinishedConnections]
    | cons m rest ih => simp [checkFinishedConnections, ih]
  · intro running h r hnd hmem
    refine ⟨by simp [processMsg, hmem], ?_, ?_⟩
    · simp only [processMsg, if_pos hmem]
      exact fun hc => (hnd.mem_erase_iff.1 hc).1 rfl
    · intro h' hne
      simp only [processMsg, if_pos hmem]
      exact List.mem_erase_of_ne hne
  · intro running h r hmem
    simp [processMsg, hmem]

/-- Witness for C2 at concrete inputs: draining `[done 1, other, done 9]` from
running-set `[1, 2]` removes only `1`, finishes it once, and discards the
message for non-running `9`. -/
theorem drive_then_drain_all_witness :
    timerTriggered [1, 2] [CurlMsg.done 1 0] =
        checkFinishedConnections [1, 2] [CurlMsg.done 1 0] ∧
    socketEventTriggered [1, 2] 5 true [CurlMsg.done 1 0] =
        checkFinishedConnections [1, 2] [CurlMsg.done 1 0] ∧
    (checkFinishedConnections [1, 2] [CurlMsg.done 1 0, CurlMsg.other, CurlMsg.done 9 3]).1 =
        [CurlMsg.done 1 0, CurlMsg.other, CurlMsg.done 9 3].foldl
          (fun s m => (processMsg s m).1) [1, 2] ∧
    (processMsg [1, 2] (CurlMsg.done 1 0)).2 = [Effect.didFinish 1 0] ∧
    processMsg [1, 2] (CurlMsg.done 9 3) = ([1, 2], []) :=
  ⟨drive_then_drain_all.1 [1, 2] [CurlMsg.done 1 0],
    drive_then_drain_all.2.1 [1, 2] 5 true [CurlMsg.done 1 0],
    drive_then_drain_all.2.2.1 [1, 2] [CurlMsg.done 1 0, CurlMsg.other, CurlMsg.done 9 3],
    (drive_then_drain_all.2.2.2.1 [1, 2] 1 0 (by decide) (by decide)).1,
    drive_then_drain_all.2.2.2.2 [1, 2] 9 3 (by decide)⟩

/-- Claim C8: Running-set membership invariant: over any run from the initial
(empty) running-set, a handle is in the running-set iff its submissions exceed
its removals-plus-finishes by exactly one (it has been started and not yet
reported finished or aborted); a handle enters the set only through `Start`, and
leaves it only through `Abort` or through a drained done-message for it — and
the conservation equation makes the two removal channels mutually exclusive per
entry. -/
theorem running_set_membership_invariant :
    (∀ (cmds : List Cmd) (h : Nat),
        h ∈ (run [] cmds).1 ↔
          (run [] cmds).2.countP (isAddOf h) =
            (run [] cmds).2.countP (isRemoveOf h) +
              (run [] cmds).2.countP (isFinishOf h) + 1) ∧
    (∀ (s : List Nat) (c : Cmd) (h : Nat), h ∉ s → h ∈ (stepCmd s c).1 →
        c = Cmd.start h) ∧
    (∀ (s : List Nat) (c : Cmd) (h : Nat), h ∈ s → h ∉ (stepCmd s c).1 →
        c = Cmd.abort h ∨
          ∃ msgs, (∃ r, CurlMsg.done h r ∈ msgs) ∧
            (c = Cmd.timerFired msgs ∨
              ∃ sock cw, c = Cmd.socketReady sock cw msgs)) := by
  refine ⟨?_, ?_, ?_⟩
  · intro cmds h
    have hcons := run_conservation (s := []) cmds h List.nodup_nil
    simp only [ind, List.not_mem_nil, if_false] at hcons
    constructor
    · intro hmem
      rw [if_pos hmem] at hcons
      omega
    · intro heq
      by_contra hnm
      rw [if_neg hnm] at hcons
      omega
  · intro s c h hout hin
    cases c with
    | start h' =>
      by_cases hm : h' ∈ s
      · exact absurd (by simpa [stepCmd, startConnection, hm] using hin) hout
      · rcases List.mem_cons.1 (by simpa [stepCmd, startConnection, hm] using hin) with e | e
        · rw [e]
        · exact absurd e hout
    | abort h' =>
      by_cases hm : h' ∈ s
      · exact absurd (List.erase_subset h' s (by simpa [stepCmd, abortConnection, hm] using hin)) hout
      · exact absurd (by simpa [stepCmd, abortConnection, hm] using hin) hout
    | timerFired msgs =>
      exact absurd
        (checkFinished_subset msgs (by simpa [stepCmd, timerTriggered] using hin)) hout
    | socketReady sock cw msgs =>
      exact absurd
        (checkFinished_subset msgs (by simpa [stepCmd, socketEventTriggered] using hin)) hout
  · intro s c h hin hout
    cases c with
    | start h' =>
      by_cases hm : h' ∈ s
      · exact absurd hin (by simpa [stepCmd, startConnection, hm] using hout)
      · exact absurd (List.mem_cons_of_mem h' hin)
          (by simpa [stepCmd, startConnection, hm] using hout)
    | abort h' =>
      by_cases heq : h' = h
      · exact Or.inl (by rw [heq])
      · by_cases hm : h' ∈ s
        · exact absurd ((List.mem_erase_of_ne fun e => heq e.symm).2 hin)
            (by simpa [stepCmd, abortConnection, hm] using hout)
        · exact absurd hin (by simpa [stepCmd, abortConnection, hm] using hout)
    | timerFired msgs =>
      exact Or.inr ⟨msgs,
        checkFinished_removed_has_done msgs hin
          (by simpa [stepCmd, timerTriggered] using hout),
        Or.inl rfl⟩
    | socketReady sock cw msgs =>
      exact Or.inr ⟨msgs,
        checkFinished_removed_has_done msgs hin
          (by simpa [stepCmd, socketEventTriggered] using hout),
        Or.inr ⟨sock, cw, rfl⟩⟩

/-- Witness for C8 at concrete inputs: after start-start-abort-drain on handles
`1` and `2`, membership matches the effect counts; non-running `3` can only have
entered via `Start`; running `2` leaving via a drain means its done-message was
drained. -/
theorem running_set_membership_invariant_witness :
    ((1 : Nat) ∈ (run [] [Cmd.start 1, Cmd.start 2, Cmd.abort 2,
        Cmd.timerFired [CurlMsg.done 1 4]]).1 ↔
      (run [] [Cmd.start 1, Cmd.start 2, Cmd.abort 2,
          Cmd.timerFired [CurlMsg.done 1 4]]).2.countP (isAddOf 1) =
        (run [] [Cmd.start 1, Cmd.start 2, Cmd.abort 2,
            Cmd.timerFired [CurlMsg.done 1 4]]).2.countP (isRemoveOf 1) +
          (run [] [Cmd.start 1, Cmd.start 2, Cmd.abort 2,
              Cmd.timerFired [CurlMsg.done 1 4]]).2.countP (isFinishOf 1) + 1) ∧
    Cmd.start 3 = Cmd.start 3 ∧
    (Cmd.timerFired [CurlMsg.done 2 0] = Cmd.abort 2 ∨
      ∃ msgs, (∃ r, CurlMsg.done 2 r ∈ msgs) ∧
        (Cmd.timerFired [CurlMsg.done 2 0] = Cmd.timerFired msgs ∨
          ∃ sock cw, Cmd.timerFired [CurlMsg.done 2 0] = Cmd.socketReady sock cw msgs)) :=
  ⟨running_set_membership_invariant.1
      [Cmd.start 1, Cmd.start 2, Cmd.abort 2, Cmd.timerFired [CurlMsg.done 1 4]] 1,
    running_set_membership_invariant.2.1 [] (Cmd.start 3) 3 (by decide) (by decide),
    running_set_membership_invariant.2.2 [2] (Cmd.timerFired [CurlMsg.done 2 0]) 2
      (by decide) (by decide)⟩

/-!
## Claims about the timer and the single-socket watcher
-/

/-- Claim C6: `SetTimer(ms)` first stops the shared timer and then starts a new
single-shot alarm iff `ms ≥ 0`; the previously pending alarm, if any, is
cancelled so its callback never executes, and the alarm left pending — the only
one that can still fire — is fresh, uncancelled and distinct from the previous
one: only the most recent requested deadline can ever fire. -/
theorem setTimer_cancels_previous_deadline :
    ∀ (t : TimerState) (ms : Int), timerWF t →
      (((setTimer ms t).pending.isSome) ↔ 0 ≤ ms) ∧
      (∀ a, t.pending = some a → ¬ alarmCallbackRuns (setTimer ms t) a) ∧
      (∀ a, (setTimer ms t).pending = some a →
          alarmCallbackRuns (setTimer ms t) a ∧ t.pending ≠ some a) ∧
      timerWF (setTimer ms t) := by
  intro t ms hwf
  obtain ⟨pend, canc, nid⟩ := t
  have hcanc : ∀ x ∈ canc, x < nid := hwf.1
  cases pend with
  | some a =>
    have ha : a < nid := hwf.2 a rfl
    by_cases hms : 0 ≤ ms
    · have hst : setTimer ms ⟨some a, canc, nid⟩ = ⟨some nid, a :: canc, nid + 1⟩ := by
        simp [setTimer, timerStop, timerStart, hms]
      refine ⟨by simp [hst, hms], ?_, ?_, ?_⟩
      · intro a' ha'
        obtain rfl : a = a' := by simpa using ha'
        rw [hst]
        simp [alarmCallbackRuns]
      · intro a' ha'
        rw [hst] at ha'
        obtain rfl : nid = a' := by simpa using ha'
        refine ⟨?_, ?_⟩
        · rw [hst]
          show nid ∉ a :: canc
          simp only [List.mem_cons]
          rintro (e | e)
          · omega
          · exact absurd (hcanc _ e) (by omega)
        · show (some a : Option Nat) ≠ some nid
          intro hcon
          have : a = nid := by simpa using hcon
          omega
      · rw [hst]
        refine ⟨?_, ?_⟩
        · intro a' ha'
          show a' < nid + 1
          rcases List.mem_cons.1 ha' with e | e
          · omega
          · exact Nat.lt_succ_of_lt (hcanc _ e)
        · intro a' ha'
          obtain rfl : nid = a' := by simpa using ha'
          show nid < nid + 1
          omega
    · have hst : setTimer ms ⟨some a, canc, nid⟩ = ⟨none, a :: canc, nid⟩ := by
        simp [setTimer, timerStop, hms]
      refine ⟨by simp [hst, hms], ?_, ?_, ?_⟩
      · intro a' ha'
        obtain rfl : a = a' := by simpa using ha'
        rw [hst]
        simp [alarmCallbackRuns]
      · intro a' ha'
        rw [hst] at ha'
        simp at ha'
      · rw [hst]
        refine ⟨?_, ?_⟩
        · intro a' ha'
          show a' < nid
          rcases List.mem_cons.1 ha' with e | e
          · omega
          · exact hcanc _ e
        · intro a' ha'
          simp at ha'
  | none =>
    by_cases hms : 0 ≤ ms
    · have hst : setTimer ms ⟨none, canc, nid⟩ = ⟨some nid, canc, nid + 1⟩ := by
        simp [setTimer, timerStop, timerStart, hms]
      refine ⟨by simp [hst, hms], ?_, ?_, ?_⟩
      · intro a' ha'
        simp at ha'
      · intro a' ha'
        rw [hst] at ha'
        obtain rfl : nid = a' := by simpa using ha'
        refine ⟨?_, by simp⟩
        rw [hst]
        show nid ∉ canc
        intro hcon
        exact absurd (hcanc _ hcon) (by omega)
      · rw [hst]
        refine ⟨?_, ?_⟩
        · intro a' ha'
          show a' < nid + 1
          exact Nat.lt_succ_of_lt (hcanc _ ha')
        · intro a' ha'
          obtain rfl : nid = a' := by simpa using ha'
          show nid < nid + 1
          omega
    · have hst : setTimer ms ⟨none, canc, nid⟩ = ⟨none, canc, nid⟩ := by
        simp [setTimer, timerStop, hms]
      refine ⟨by simp [hst, hms], ?_, ?_, ?_⟩
      · intro a' ha'
        simp at ha'
      · intro a' ha'
        rw [hst] at ha'
        simp at ha'
      · rw [hst]
        refine ⟨?_, ?_⟩
        · intro a' ha'
          exact hcanc _ ha'
        · intro a' ha'
          simp at ha'

/-- Witness for C6 at concrete inputs: re-arming with `ms = 5` while alarm `0` is
pending cancels alarm `0` and leaves the fresh alarm `1` as the only one that can
fire. -/
theorem setTimer_cancels_previous_deadline_witness :
    ((setTimer 5 ⟨some 0, [], 1⟩).pending.isSome ↔ (0 : Int) ≤ 5) ∧
      ¬ alarmCallbackRuns (setTimer 5 ⟨some 0, [], 1⟩) 0 ∧
      (alarmCallbackRuns (setTimer 5 ⟨some 0, [], 1⟩) 1 ∧
        (⟨some 0, [], 1⟩ : TimerState).pending ≠ some 1) :=
  ⟨(setTimer_cancels_previous_deadline ⟨some 0, [], 1⟩ 5
      ⟨by decide, by decide⟩).1,
    (setTimer_cancels_previous_deadline ⟨some 0, [], 1⟩ 5
      ⟨by decide, by decide⟩).2.1 0 rfl,
    (setTimer_cancels_previous_deadline ⟨some 0, [], 1⟩ 5
      ⟨by decide, by decide⟩).2.2.1 1 (by decide)⟩

/-- Once the watcher is disarmed (no outstanding one-shot wait), no completion is
ever delivered, so no callback invocation occurs. -/
theorem watcherRun_disarmed (w : WatcherState) (evs : List (Bool × Bool))
    (h : w.armed = false) : watcherRun w evs = 0 := by
  induction evs with
  | nil => rfl
  | cons e rest ih =>
    obtain ⟨ab, cs⟩ := e
    simp [watcherRun, h, ih]

/-- Claim C7: If `Stop` is called on the single-socket watcher from within its own
firing callback, the watcher does not re-arm: after the callback returns, the
stopped flag is found set and no new one-shot wait is issued, so however many
further readiness events occur, no further callback invocation happens for that
socket. -/
theorem watcher_stop_inside_callback_no_rearm :
    ∀ (w : WatcherState) (evs : List (Bool × Bool)), w.armed = true →
      (eventTriggered w false true).1.stopped = true ∧
      (eventTriggered w false true).1.armed = false ∧
      (eventTriggered w false true).2 = true ∧
      watcherRun (eventTriggered w false true).1 evs = 0 := by
  intro w evs _harmed
  refine ⟨by simp [eventTriggered, watcherStop], by simp [eventTriggered, watcherStop],
    by simp [eventTriggered, watcherStop], ?_⟩
  exact watcherRun_disarmed _ evs (by simp [eventTriggered, watcherStop])

/-- Witness for C7 at concrete inputs: an armed, unstopped watcher whose callback
calls `Stop` ends stopped and disarmed, and two further readiness events deliver
no callback. -/
theorem watcher_stop_inside_callback_no_rearm_witness :
    (eventTriggered ⟨false, true⟩ false true).1.stopped = true ∧
      (eventTriggered ⟨false, true⟩ false true).1.armed = false ∧
      (eventTriggered ⟨false, true⟩ false true).2 = true ∧
      watcherRun (eventTriggered ⟨false, true⟩ false true).1
        [(false, false), (true, false)] = 0 :=
  watcher_stop_inside_callback_no_rearm ⟨false, true⟩
    [(false, false), (true, false)] rfl

/-!
## Claims about response-header parsing
-/

/-- One insertion-loop step appends exactly the line's contribution. -/
theorem parseHeaderStep_eq (acc : List (List Char × List Char)) (line : List Char) :
    parseHeaderStep acc line = acc ++ (lineToHeaderPair line).toList := by
  unfold parseHeaderStep lineToHeaderPair
  cases hkv : splitString line colonSpace with
  | nil => simp
  | cons k tail =>
    cases tail with
    | nil => simp
    | cons v tail' => simp

/-- The insertion loop of `ParseResponseHeaders`, run from any accumulator,
collects exactly each line's contribution in order. -/
theorem parseFold_filterMap (lines : List (List Char))
    (acc : List (List Char × List Char)) :
    lines.foldl parseHeaderStep acc = acc ++ lines.filterMap lineToHeaderPair := by
  induction lines generalizing acc with
  | nil => simp
  | cons line rest ih =>
    rw [List.foldl_cons, parseHeaderStep_eq, ih, List.filterMap_cons]
    cases h : lineToHeaderPair line <;> simp [h]

/-- Claim C10: `GetResponseHeaders` parses the raw header string lazily at most
once: after one call the parsed flag is set and a second call returns the same
state and the same multimap without re-parsing.  The parse splits the raw string
on CRLF, splits each line on `": "`, a line with fewer than two segments
contributes nothing, and a line with two or more contributes exactly the pair of
its first two segments with the rest discarded — so the parse agrees with the
spec-side description `parseResponseHeadersSpec`. -/
theorem getResponseHeaders_parses_once :
    (∀ raw, parseResponseHeaders raw = parseResponseHeadersSpec raw) ∧
    (∀ line, (splitString line colonSpace).length < 2 →
        lineToHeaderPair line = none) ∧
    (∀ line k v ss, splitString line colonSpace = k :: v :: ss →
        lineToHeaderPair line = some (k, v)) ∧
    (∀ st, (getResponseHeaders st).1.hasParsedResponseHeaders = true ∧
        getResponseHeaders (getResponseHeaders st).1 =
          ((getResponseHeaders st).1, (getResponseHeaders st).2)) := by
  refine ⟨?_, ?_, ?_, ?_⟩
  · intro raw
    unfold parseResponseHeaders parseResponseHeadersSpec
    simpa using parseFold_filterMap (splitString raw crlf) []
  · intro line hlen
    unfold lineToHeaderPair
    cases hkv : splitString line colonSpace with
    | nil => rfl
    | cons k tail =>
      cases tail with
      | nil => rfl
      | cons v tail' =>
        rw [hkv] at hlen
        exact absurd hlen (by simp)
  · intro line k v ss h
    unfold lineToHeaderPair
    rw [h]
  · intro st
    by_cases hp : st.hasParsedResponseHeaders
    · simp [getResponseHeaders, hp]
    · simp [getResponseHeaders, hp]

/-- Witness for C10 at concrete inputs: the delimiterless line `"Bad"` contributes
nothing, the line `"K: v: w"` contributes exactly `("K", "v")`, and a second
`GetResponseHeaders` call is a no-op on the state. -/
theorem getResponseHeaders_parses_once_witness :
    parseResponseHeaders ['K'] = parseResponseHeadersSpec ['K'] ∧
      lineToHeaderPair ['B', 'a', 'd'] = none ∧
      lineToHeaderPair ['K', ':', ' ', 'v', ':', ' ', 'w'] = some (['K'], ['v']) ∧
      (getResponseHeaders ⟨['K'], false, []⟩).1.hasParsedResponseHeaders = true :=
  ⟨getResponseHeaders_parses_once.1 ['K'],
    getResponseHeaders_parses_once.2.1 ['B', 'a', 'd']
      (by simp [splitString, colonSpace, findSub, List.isPrefixOf]),
    getResponseHeaders_parses_once.2.2.1 ['K', ':', ' ', 'v', ':', ' ', 'w']
      ['K'] ['v'] [['w']]
      (by simp [splitString, colonSpace, findSub, List.isPrefixOf]),
    (getResponseHeaders_parses_once.2.2.2 ⟨['K'], false, []⟩).1⟩

end Curlion
